import Mathlib

/-!
Verification of the spreadsheet-chat viewer/editor.

The source is a browser application that decodes spreadsheet rows whose
columns follow the positional convention Q1, R1, N1, Expected, Q2, R2, N2,
Expected_1, ... into conversation turns, filters rows, ingests remote chat
exchanges, and re-exports the table.  This file embeds the row data model
and the relevant functions shallowly and proves the frozen claims about
them.

Conventions of the embedding:
- a spreadsheet cell value is a `Value` (string, number, or boolean); a JS
  `null`/`undefined`/missing key is represented by `Option.none` at lookup;
- column names are the inductive `Col`: `Col.Q k` stands for the string
  key "Qk", `Col.R k` for "Rk", `Col.N k` for "Nk", `Col.Expected` for
  "Expected", `Col.ExpectedUnd k` for "Expected_k", `Col.ExpectedNum k`
  for "Expectedk", and `Col.meta s` for any other column name `s`;
- a row is an association list from `Col` to `Value` (JS object);
- machine numbers are modelled as `Int` (the cells the program touches are
  integers); string coercion `String(v)` is the decimal rendering below.
-/

/-- Whitespace test used to embed the JS `String.prototype.trim`:
space, tab, LF, VT, FF, CR, NBSP, zero-width no-break space, the Zs range
U+2000..U+200A, LS, PS, NNBSP, MMSP, ideographic space, ogham space mark,
NEL. -/
def isWsChar (c : Char) : Bool :=
  (9 ≤ c.val && c.val ≤ 13) || c.val == 32 || c.val == 160 || c.val == 0x1680 ||
  (0x2000 ≤ c.val && c.val ≤ 0x200A) || c.val == 0x2028 || c.val == 0x2029 ||
  c.val == 0x202F || c.val == 0x205F || c.val == 0x3000 || c.val == 0xFEFF || c.val == 0x85

/-- Drop leading and trailing whitespace characters from a character list. -/
def trimChars (l : List Char) : List Char :=
  ((l.dropWhile isWsChar).reverse.dropWhile isWsChar).reverse

/-- Embedding of the JS `s.trim()`. -/
def strTrim (s : String) : String := String.mk (trimChars s.data)

/-- Decimal digit character. -/
def digitChar (n : Nat) : Char :=
  match n with
  | 0 => '0' | 1 => '1' | 2 => '2' | 3 => '3' | 4 => '4'
  | 5 => '5' | 6 => '6' | 7 => '7' | 8 => '8' | _ => '9'

/-- Fuelled decimal rendering of a natural number (most significant digit
first); fuel `n` always suffices. -/
def natToDecAux : Nat → Nat → List Char → List Char
  | 0, n, acc => digitChar n :: acc
  | fuel + 1, n, acc =>
    if n < 10 then digitChar n :: acc
    else natToDecAux fuel (n / 10) (digitChar (n % 10) :: acc)

/-- Decimal rendering of a natural number, embedding JS number-to-string
conversion for nonnegative integers. -/
def natToDec (n : Nat) : String := String.mk (natToDecAux n n [])

/-- Decimal rendering of an integer, embedding JS number-to-string
conversion for integral numbers. -/
def intToDec (i : Int) : String :=
  if i < 0 then String.mk ('-' :: (natToDecAux i.natAbs i.natAbs []))
  else natToDec i.toNat

/-- A spreadsheet cell value. -/
inductive Value where
  | vStr (s : String)
  | vNum (n : Int)
  | vBool (b : Bool)
deriving DecidableEq, Repr

open Value

/-- Embedding of JS `String(v)` on cell values. -/
def toStr : Value → String
  | vStr s => s
  | vNum i => intToDec i
  | vBool b => if b then "true" else "false"

/-- `String(v)` where `v` may be absent; JS renders `undefined` as the
string "undefined" (this branch is unreachable in guarded uses). -/
def toStrO : Option Value → String
  | some v => toStr v
  | none => "undefined"

/-- Column names, in bijection with the string keys the source uses
(see the header comment). -/
inductive Col where
  | Q (k : Nat)
  | R (k : Nat)
  | N (k : Nat)
  | Expected
  | ExpectedUnd (k : Nat)
  | ExpectedNum (k : Nat)
  | meta (s : String)
deriving DecidableEq, Repr

/-- A row: an association list from column to cell value (a JS object;
rows built by the program have distinct keys, and lookup takes the first
binding). -/
abbrev Row := List (Col × Value)

/-- Property access `row[col]`: `none` models `undefined`. -/
def rlookup (c : Col) : Row → Option Value
  | [] => none
  | (c', v) :: rest => if c = c' then some v else rlookup c rest

/-- Embedding of the source `isBlank`: null/undefined are blank, a string
is blank when its trim is empty, other values are never blank. -/
def isBlank : Option Value → Bool
  | none => true
  | some (vStr s) => decide (strTrim s = "")
  | some (vNum _) => false
  | some (vBool _) => false

/-- Embedding of the source `stableValue`: empty string for
null/undefined, otherwise `String(v)`. -/
def stableValue : Option Value → String
  | none => ""
  | some v => toStr v

/-- Role of a decoded turn. -/
inductive Role where
  | user
  | assistant
deriving DecidableEq, Repr

/-- A decoded turn (message) as built by `rowToMessages` in script.js.
User messages carry no `exchangeIndex` field (the JS object literal omits
it), hence the `Option Nat`. -/
structure Msg where
  role : Role
  text : String
  expected : Option String
  note : Option String
  exchangeIndex : Option Nat
deriving DecidableEq, Repr

/-- Note lookup for the response of pair `k` (script.js lines 66-69):
the trimmed `Nk` value when non-blank, else null. -/
def noteValueAt (row : Row) (k : Nat) : Option String :=
  let n := rlookup (Col.N k) row
  if isBlank n then none else some (strTrim (toStrO n))

/-- Expectation lookup for the response of pair `k` (script.js lines
71-92): primary source is `Expected` when k = 1 and `Expected_(k-1)`
otherwise; if the primary is blank, fall back to `Expectedk`; blank
everywhere gives null. -/
def expectedValueAt (row : Row) (k : Nat) : Option String :=
  let primary := if k = 1 then rlookup Col.Expected row
                 else rlookup (Col.ExpectedUnd (k - 1)) row
  let e0 : Option String :=
    if isBlank primary then none else some (strTrim (toStrO primary))
  match e0 with
  | some v => some v
  | none =>
    let fb := rlookup (Col.ExpectedNum k) row
    if isBlank fb then none else some (strTrim (toStrO fb))

/-- The messages pair `k` contributes in one loop iteration of
`rowToMessages` (script.js lines 60-101): a user turn when `Qk` is
non-blank, then an assistant turn when `Rk` is non-blank.  When both are
blank nothing is produced, matching the skip branch. -/
def pairMsgs (row : Row) (k : Nat) : List Msg :=
  let q := rlookup (Col.Q k) row
  let r := rlookup (Col.R k) row
  (if isBlank q then [] else [⟨Role.user, toStrO q, none, none, none⟩]) ++
  (if isBlank r then []
   else [⟨Role.assistant, toStrO r, expectedValueAt row k, noteValueAt row k, some (k - 1)⟩])

/-- Both `Qk` and `Rk` are blank. -/
def blankPair (row : Row) (k : Nat) : Bool :=
  isBlank (rlookup (Col.Q k) row) && isBlank (rlookup (Col.R k) row)

/-- The loop break condition of `rowToMessages` at index `k`: pair `k`
and pair `k+1` are both fully blank. -/
def stopAt (row : Row) (k : Nat) : Bool :=
  blankPair row k && blankPair row (k + 1)

/-- Fuelled unfolding of the `while (true)` loop of `rowToMessages`. -/
def rowToMessagesAux (row : Row) : Nat → Nat → List Msg
  | 0, _ => []
  | fuel + 1, k =>
    if stopAt row k then []
    else pairMsgs row k ++ rowToMessagesAux row fuel (k + 1)

/-- The pair index a column contributes to the loop bound: the scan of
`rowToMessages` probes only `Qk`/`Rk` to decide termination. -/
def pairIdxOf : Col → Nat
  | Col.Q k => k
  | Col.R k => k
  | _ => 0

/-- Largest pair index mentioned by a `Q`/`R` column of the row. -/
def maxPairIdx (row : Row) : Nat :=
  (row.map (fun p => pairIdxOf p.1)).foldr max 0

/-- Embedding of `rowToMessages` (script.js lines 38-105).  The JS loop
runs unbounded; because a row is finite, both pairs are blank beyond
`maxPairIdx row`, so fuel `maxPairIdx row + 1` reaches the break
condition (proved below). -/
def rowToMessages (row : Row) : List Msg :=
  rowToMessagesAux row (maxPairIdx row + 1) 1

/-- Number of loop iterations before the break condition is reached,
within the given fuel. -/
def stopDist (row : Row) : Nat → Nat → Nat
  | 0, _ => 0
  | fuel + 1, k =>
    if stopAt row k then 0 else stopDist row fuel (k + 1) + 1

lemma rlookup_mem {c : Col} {v : Value} : ∀ {row : Row}, rlookup c row = some v → (c, v) ∈ row := by
  intro row h
  induction row with
  | nil => simp [rlookup] at h
  | cons p rest ih =>
    obtain ⟨c', v'⟩ := p
    by_cases hc : c = c'
    · subst hc
      simp [rlookup] at h
      subst h
      exact List.mem_cons_self _ _
    · simp [rlookup, hc] at h
      exact List.mem_cons_of_mem _ (ih h)

lemma mem_le_foldr_max {x : Nat} : ∀ {l : List Nat}, x ∈ l → x ≤ l.foldr max 0 := by
  intro l hx
  induction l with
  | nil => simp at hx
  | cons a as ih =>
    rcases List.mem_cons.mp hx with h | h
    · subst h
      exact le_max_left _ _
    · exact le_trans (ih h) (le_max_right _ _)

lemma rlookup_Q_none_of_gt {row : Row} {k : Nat} (h : maxPairIdx row < k) :
    rlookup (Col.Q k) row = none := by
  cases hv : rlookup (Col.Q k) row with
  | none => rfl
  | some v =>
    have hmem := rlookup_mem hv
    have : k ≤ maxPairIdx row := by
      have : pairIdxOf (Col.Q k) ∈ row.map (fun p => pairIdxOf p.1) :=
        List.mem_map.mpr ⟨(Col.Q k, v), hmem, rfl⟩
      simpa [pairIdxOf, maxPairIdx] using mem_le_foldr_max this
    omega

lemma rlookup_R_none_of_gt {row : Row} {k : Nat} (h : maxPairIdx row < k) :
    rlookup (Col.R k) row = none := by
  cases hv : rlookup (Col.R k) row with
  | none => rfl
  | some v =>
    have hmem := rlookup_mem hv
    have : k ≤ maxPairIdx row := by
      have : pairIdxOf (Col.R k) ∈ row.map (fun p => pairIdxOf p.1) :=
        List.mem_map.mpr ⟨(Col.R k, v), hmem, rfl⟩
      simpa [pairIdxOf, maxPairIdx] using mem_le_foldr_max this
    omega

lemma stopAt_of_gt {row : Row} {k : Nat} (h : maxPairIdx row < k) : stopAt row k = true := by
  simp [stopAt, blankPair, rlookup_Q_none_of_gt h, rlookup_R_none_of_gt h,
    rlookup_Q_none_of_gt (lt_trans h (Nat.lt_succ_self k)),
    rlookup_R_none_of_gt (lt_trans h (Nat.lt_succ_self k)), isBlank]

lemma stopDist_le (row : Row) : ∀ fuel k, stopDist row fuel k ≤ fuel := by
  intro fuel
  induction fuel with
  | zero => intro k; simp [stopDist]
  | succ f ih =>
    intro k
    by_cases h : stopAt row k
    · simp [stopDist, h]
    · simp only [stopDist, h, if_neg, Bool.false_eq_true, if_false]
      exact Nat.succ_le_succ (ih (k + 1))

lemma stopAt_stopDist (row : Row) :
    ∀ fuel k, (∃ j, j < fuel ∧ stopAt row (k + j) = true) →
      stopAt row (k + stopDist row fuel k) = true := by
  intro fuel
  induction fuel with
  | zero =>
    rintro k ⟨j, hj, _⟩
    omega
  | succ f ih =>
    rintro k ⟨j, hj, hstop⟩
    by_cases h : stopAt row k
    · simp [stopDist, h]
    · have hj0 : j ≠ 0 := by
        rintro rfl
        rw [Nat.add_zero] at hstop
        exact h hstop
      obtain ⟨j', rfl⟩ := Nat.exists_eq_succ_of_ne_zero hj0
      have := ih (k + 1) ⟨j', by omega, by simpa [Nat.add_assoc, Nat.add_comm 1 j'] using hstop⟩
      simp only [stopDist, h, Bool.false_eq_true, if_false]
      simpa [Nat.add_assoc, Nat.add_comm 1 (stopDist row f (k + 1))] using this

lemma stopAt_false_of_lt_stopDist (row : Row) :
    ∀ fuel k j, j < stopDist row fuel k → stopAt row (k + j) = false := by
  intro fuel
  induction fuel with
  | zero => intro k j hj; simp [stopDist] at hj
  | succ f ih =>
    intro k j hj
    by_cases h : stopAt row k
    · simp [stopDist, h] at hj
    · simp only [stopDist, h, Bool.false_eq_true, if_false] at hj
      cases j with
      | zero => simpa using h
      | succ j' =>
        have := ih (k + 1) j' (by omega)
        simpa [Nat.add_assoc, Nat.add_comm 1 j'] using this

lemma rowToMessagesAux_eq_flatMap (row : Row) :
    ∀ fuel k, rowToMessagesAux row fuel k =
      (List.range' k (stopDist row fuel k)).flatMap (pairMsgs row) := by
  intro fuel
  induction fuel with
  | zero => intro k; simp [rowToMessagesAux, stopDist]
  | succ f ih =>
    intro k
    by_cases h : stopAt row k
    · simp [rowToMessagesAux, stopDist, h]
    · simp only [rowToMessagesAux, stopDist, h, Bool.false_eq_true, if_false]
      rw [ih (k + 1), List.range'_succ]
      simp

lemma blankPair_pairMsgs_nil {row : Row} {j : Nat} (h : blankPair row j = true) :
    pairMsgs row j = [] := by
  simp only [blankPair, Bool.and_eq_true] at h
  simp [pairMsgs, h.1, h.2]

/-- C1: for every row the decoder terminates and there is a unique first
index S at which Q, R of pairs S and S+1 are all blank; the decoded turns
are exactly those of pairs 1..S-1, and any fully blank pair, in
particular a skipped gap pair, contributes no turn.  Consequently a row
with pair 1 blank but pair 2 non-blank yields exactly the turns of pairs
2..S-1. -/
theorem C1_decoder_stops_at_first_double_blank (row : Row) :
    ∃ S : Nat, 1 ≤ S ∧
      stopAt row S = true ∧
      (∀ j, 1 ≤ j → j < S → stopAt row j = false) ∧
      rowToMessages row = (List.range' 1 (S - 1)).flatMap (pairMsgs row) ∧
      (∀ j, blankPair row j = true → pairMsgs row j = []) ∧
      (blankPair row 1 = true → stopAt row 1 = false →
        rowToMessages row = (List.range' 2 (S - 2)).flatMap (pairMsgs row)) := by
  set fuel := maxPairIdx row + 1 with hfuel
  set D := stopDist row fuel 1 with hD
  have hex : ∃ j, j < fuel ∧ stopAt row (1 + j) = true :=
    ⟨maxPairIdx row, by omega, stopAt_of_gt (by omega)⟩
  have hstop : stopAt row (1 + D) = true := stopAt_stopDist row fuel 1 hex
  have hmin : ∀ j, 1 ≤ j → j < 1 + D → stopAt row j = false := by
    intro j h1 hj
    have := stopAt_false_of_lt_stopDist row fuel 1 (j - 1) (by omega)
    have hj1 : 1 + (j - 1) = j := by omega
    rwa [hj1] at this
  have heq : rowToMessages row = (List.range' 1 D).flatMap (pairMsgs row) := by
    rw [rowToMessages, rowToMessagesAux_eq_flatMap]
  refine ⟨1 + D, by omega, hstop, hmin, by simpa using heq,
    fun j h => blankPair_pairMsgs_nil h, ?_⟩
  intro hbp1 hstop1
  have hD1 : 1 ≤ D := by
    by_contra h
    have hD0 : D = 0 := by omega
    rw [hD0, Nat.add_zero] at hstop
    rw [hstop] at hstop1
    simp at hstop1
  have hsplit : List.range' 1 D = 1 :: List.range' 2 (D - 1) := by
    conv_lhs => rw [show D = (D - 1) + 1 by omega]
    rw [List.range'_succ]
  have h2 : (1 + D) - 2 = D - 1 := by omega
  rw [heq, hsplit, h2]
  simp [blankPair_pairMsgs_nil hbp1]

/-- Spec-side expectation lookup, following the words of the spec: the
priority list is the primary column (`Expected` for k = 1, else
`Expected_(k-1)`) followed by the fallback `Expectedk`; the first
non-blank source wins, trimmed; if no source is non-blank the result is
null. -/
def specExpectedLookup (row : Row) (k : Nat) : Option String :=
  (([if k = 1 then rlookup Col.Expected row else rlookup (Col.ExpectedUnd (k - 1)) row,
     rlookup (Col.ExpectedNum k) row]).find? (fun o => !isBlank o)).map
    (fun o => strTrim (toStrO o))

/-- C3: for every row and pair index k with a non-blank response, the
decoded expectation of the assistant turn is the first non-blank source
in the priority order `Expected` (k = 1) / `Expected_(k-1)` (k > 1), then
fallback `Expectedk`, and null when all sources are blank; the assistant
turn built for pair k carries exactly that value. -/
theorem C3_expected_lookup_priority (row : Row) (k : Nat) (_hk : 1 ≤ k)
    (hr : isBlank (rlookup (Col.R k) row) = false) :
    expectedValueAt row k = specExpectedLookup row k ∧
    ∃ pre, pairMsgs row k = pre ++
      [⟨Role.assistant, toStrO (rlookup (Col.R k) row),
        specExpectedLookup row k, noteValueAt row k, some (k - 1)⟩] := by
  have h1 : expectedValueAt row k = specExpectedLookup row k := by
    unfold expectedValueAt specExpectedLookup
    by_cases hp : isBlank (if k = 1 then rlookup Col.Expected row
        else rlookup (Col.ExpectedUnd (k - 1)) row)
    · by_cases hf : isBlank (rlookup (Col.ExpectedNum k) row) <;>
        simp [hp, hf, List.find?]
    · simp [hp, List.find?]
  refine ⟨h1, if isBlank (rlookup (Col.Q k) row) then []
    else [⟨Role.user, toStrO (rlookup (Col.Q k) row), none, none, none⟩], ?_⟩
  by_cases hq : isBlank (rlookup (Col.Q k) row) <;> simp [pairMsgs, hq, hr, h1]

/-- Concrete row used to instantiate `C3_expected_lookup_priority`. -/
def c3Row : Row := [(Col.R 1, vStr "resp"), (Col.Expected, vStr " Yes ")]

theorem C3_expected_lookup_priority_witness :
    1 ≤ 1 ∧ isBlank (rlookup (Col.R 1) c3Row) = false ∧
    (expectedValueAt c3Row 1 = specExpectedLookup c3Row 1 ∧
      ∃ pre, pairMsgs c3Row 1 = pre ++
        [⟨Role.assistant, toStrO (rlookup (Col.R 1) c3Row),
          specExpectedLookup c3Row 1, noteValueAt c3Row 1, some (1 - 1)⟩]) :=
  ⟨le_refl 1, by decide, C3_expected_lookup_priority c3Row 1 (le_refl 1) (by decide)⟩

/-- Generic association-list lookup on `Col` keys, for the filter maps. -/
def alookup {α : Type} (c : Col) : List (Col × α) → Option α
  | [] => none
  | (c', v) :: rest => if c = c' then some v else alookup c rest

/-- The string key a column stands for (the bijection between `Col` and
the JS string keys). -/
def colName : Col → String
  | Col.Q k => "Q" ++ natToDec k
  | Col.R k => "R" ++ natToDec k
  | Col.N k => "N" ++ natToDec k
  | Col.Expected => "Expected"
  | Col.ExpectedUnd k => "Expected_" ++ natToDec k
  | Col.ExpectedNum k => "Expected" ++ natToDec k
  | Col.meta s => s

/-- Embedding of JS `s.toLowerCase()` (agrees on the ASCII names the
program compares). -/
def lowerStr (s : String) : String := String.mk (s.data.map Char.toLower)

/-- Embedding of the multi-select variant `detectIdentifierCols`
(part_000 lines 23-31): anything whose name is not `Qk`, `Rk` or
`Expected` is an identifier column. -/
def detectIdentifierCols (headers : List Col) : List Col :=
  headers.filter (fun h =>
    match h with
    | Col.Q _ => false
    | Col.R _ => false
    | Col.Expected => false
    | _ => true)

/-- First-occurrence de-duplication, embedding the JS
`Array.from(new Set(...))` construction (a Set iterates in insertion
order). -/
def dedupFirst {α : Type} [DecidableEq α] (l : List α) : List α :=
  l.foldl (fun acc a => if a ∈ acc then acc else acc ++ [a]) []

/-- The distinct non-blank string-coerced values of a column across all
rows.  The source additionally sorts them for display; the resulting
allow-set semantics is unchanged, so the sort is not modelled. -/
def distinctVals (col : Col) (allRows : List Row) : List String :=
  dedupFirst ((allRows.map (fun r => stableValue (rlookup col r))).filter (fun v => v ≠ ""))

/-- The filterable columns of the multi-select variant (part_000 lines
115, 175): identifier columns except `Note` (case-insensitive). -/
def filterableColsMulti (headers : List Col) : List Col :=
  (detectIdentifierCols headers).filter (fun c => lowerStr (colName c) ≠ "note")

/-- Default multi-select filter state (part_000 `buildFilters`): each
filterable column with at least one non-blank value gets its full value
set (all selected). -/
def buildFiltersMulti (cols : List Col) (allRows : List Row) : List (Col × List String) :=
  cols.filterMap (fun col =>
    let vals := distinctVals col allRows
    if vals = [] then none else some (col, vals))

/-- One column's pass check of the multi-select `applyFilters` (part_000
lines 172-186): with an allow-set present and non-empty, reject exactly
when the value is non-blank and not a member; otherwise no filtering. -/
def colPassesMulti (active : List (Col × List String)) (r : Row) (c : Col) : Bool :=
  match alookup c active with
  | some allowed =>
    if 0 < allowed.length then
      if stableValue (rlookup c r) ≠ "" ∧ stableValue (rlookup c r) ∉ allowed then false
      else true
    else true
  | none => true

/-- Embedding of the multi-select `applyFilters`: a row survives when
every filterable column passes. -/
def applyFiltersMulti (cols : List Col) (active : List (Col × List String))
    (rows : List Row) : List Row :=
  rows.filter (fun r => cols.all (fun c => colPassesMulti active r c))

/-- C4: in the multi-select variant, for a filtered column with a
non-empty selected allow-set, a blank value always passes and a
non-blank value passes exactly when it is in the set; a row survives
`applyFilters` exactly when every filtered column passes. -/
theorem C4_multi_select_blank_passes (cols : List Col)
    (active : List (Col × List String)) (rows : List Row) (r : Row) (c : Col)
    (allowed : List String) (ha : alookup c active = some allowed)
    (hne : allowed ≠ []) :
    (stableValue (rlookup c r) = "" → colPassesMulti active r c = true) ∧
    (stableValue (rlookup c r) ≠ "" →
      (colPassesMulti active r c = true ↔ stableValue (rlookup c r) ∈ allowed)) ∧
    (r ∈ applyFiltersMulti cols active rows ↔
      r ∈ rows ∧ ∀ col ∈ cols, colPassesMulti active r col = true) := by
  have hlen : 0 < allowed.length := List.length_pos.mpr hne
  refine ⟨?_, ?_, ?_⟩
  · intro hb
    simp [colPassesMulti, ha, hlen, hb]
  · intro hnb
    by_cases hm : stableValue (rlookup c r) ∈ allowed <;>
      simp [colPassesMulti, ha, hlen, hnb, hm]
  · simp [applyFiltersMulti, List.mem_filter, List.all_eq_true]

/-- Concrete instance data for the C4 witness. -/
def c4Active : List (Col × List String) := [(Col.meta "Priority", ["High", "Low"])]

/-- Concrete rows for the C4 witness: one blank, one matching. -/
def c4RowBlank : Row := [(Col.meta "Id", vNum 1)]

def c4RowHigh : Row := [(Col.meta "Priority", vStr "High")]

theorem C4_multi_select_blank_passes_witness :
    alookup (Col.meta "Priority") c4Active = some ["High", "Low"] ∧
    (["High", "Low"] : List String) ≠ [] ∧
    ((stableValue (rlookup (Col.meta "Priority") c4RowBlank) = "" →
        colPassesMulti c4Active c4RowBlank (Col.meta "Priority") = true) ∧
      (stableValue (rlookup (Col.meta "Priority") c4RowBlank) ≠ "" →
        (colPassesMulti c4Active c4RowBlank (Col.meta "Priority") = true ↔
          stableValue (rlookup (Col.meta "Priority") c4RowBlank) ∈ ["High", "Low"])) ∧
      (c4RowBlank ∈ applyFiltersMulti [Col.meta "Priority"] c4Active [c4RowBlank, c4RowHigh] ↔
        c4RowBlank ∈ [c4RowBlank, c4RowHigh] ∧
          ∀ col ∈ [Col.meta "Priority"], colPassesMulti c4Active c4RowBlank col = true)) :=
  ⟨by decide, by decide,
    C4_multi_select_blank_passes [Col.meta "Priority"] c4Active [c4RowBlank, c4RowHigh]
      c4RowBlank (Col.meta "Priority") ["High", "Low"] (by decide) (by decide)⟩

/-- The configured filter columns of the single-select variant
(script.js line 159). -/
def FILTER_COLUMNS : List Col :=
  [Col.meta "Priority", Col.meta "Location Run", Col.meta "User Email", Col.meta "Project Name"]

/-- Embedding of the single-select `buildFilters` (script.js lines
161-212), restricted to the `activeFilters` map it produces: a column
gets an entry (initially null, meaning All) only when rows are loaded,
the column occurs in the first row, and it has at least one non-blank
value; otherwise no entry is created for it. -/
def buildFiltersSingle (allRows : List Row) : List (Col × Option String) :=
  FILTER_COLUMNS.filterMap (fun col =>
    match allRows with
    | [] => none
    | r0 :: _ =>
      if (r0.map Prod.fst).contains col then
        if distinctVals col allRows = [] then none else some (col, none)
      else none)

/-- One column's check of the single-select `applyFilters` (script.js
lines 214-225).  The JS reads `activeFilters[col]`; a missing key yields
`undefined`, which fails the `filterValue === null` test, and the strict
comparison `rowValue !== filterValue` is then always true because
`rowValue` is a string and a string is never strictly equal to
`undefined`, so the row is rejected: hence the `none` branch is
`false`. -/
def colPassesSingle (active : List (Col × Option String)) (r : Row) (c : Col) : Bool :=
  match alookup c active with
  | some none => true
  | some (some fv) => stableValue (rlookup c r) == fv
  | none => false

/-- Embedding of the single-select `applyFilters`: a row survives when
every configured filter column passes. -/
def applyFiltersSingle (active : List (Col × Option String)) (rows : List Row) : List Row :=
  rows.filter (fun r => FILTER_COLUMNS.all (fun c => colPassesSingle active r c))

/-- A loaded row that has none of the configured filter columns. -/
def c5Row : Row := [(Col.meta "Id", vNum 1)]

/-- C5 evaluation at the failing input: in the single-select variant a
configured filter column absent from the loaded rows gets no
`activeFilters` entry, and `applyFilters` then rejects every row, so the
filtered set is empty — the claimed "absence means no filter" behaviour
fails.  The multi-select variant, whose filterable columns are derived
from the data, does keep the row. -/
theorem C5_absent_filter_column_rejects_all_rows :
    applyFiltersSingle (buildFiltersSingle [c5Row]) [c5Row] = [] ∧
    applyFiltersMulti (filterableColsMulti [Col.meta "Id"])
      (buildFiltersMulti (filterableColsMulti [Col.meta "Id"]) [c5Row]) [c5Row] = [c5Row] := by
  decide

/-- Stable insertion step for the embedded `Array.prototype.sort`. -/
def insertLe {α : Type} (le : α → α → Bool) (a : α) : List α → List α
  | [] => [a]
  | b :: bs => if le a b then a :: b :: bs else b :: insertLe le a bs

/-- Comparator sort used to embed `Array.prototype.sort`; every use in
the source sorts by distinct numeric keys, so any correct sort yields
the same list. -/
def sortLe {α : Type} (le : α → α → Bool) : List α → List α
  | [] => []
  | a :: as => insertLe le a (sortLe le as)

def isQCol : Col → Bool
  | Col.Q _ => true
  | _ => false

def isRCol : Col → Bool
  | Col.R _ => true
  | _ => false

def isNCol : Col → Bool
  | Col.N _ => true
  | _ => false

/-- Character-list prefix test (JS regex anchors). -/
def listStartsWith : List Char → List Char → Bool
  | _, [] => true
  | [], _ :: _ => false
  | a :: as, b :: bs => a == b && listStartsWith as bs

/-- The `/^Expected/i` family test of `downloadExcel`. -/
def isExpFamilyCol : Col → Bool
  | Col.Expected => true
  | Col.ExpectedUnd _ => true
  | Col.ExpectedNum _ => true
  | Col.meta s => listStartsWith (lowerStr s).data "expected".data
  | _ => false

/-- Numeric sort key of a `Q`/`R`/`N` column: `parseInt` of its digits. -/
def pairNum : Col → Nat
  | Col.Q k => k
  | Col.R k => k
  | Col.N k => k
  | _ => 0

/-- Parse a leading digit run. -/
def readDigits : List Char → Nat → Nat
  | [], acc => acc
  | c :: cs, acc => if c.isDigit then readDigits cs (acc * 10 + (c.toNat - 48)) else acc

/-- First digit run in a character list, 0 when there is none: the
`parseInt(a.match(/\d+/)?.[0]) || 0` idiom. -/
def firstNumIn : List Char → Nat
  | [] => 0
  | c :: cs => if c.isDigit then readDigits (c :: cs) 0 else firstNumIn cs

/-- Numeric key of an `Expected`-family column.  For the structured
constructors the first digit run of the printed name is its index, so
the key is given directly. -/
def expKey : Col → Nat
  | Col.Expected => 0
  | Col.ExpectedUnd k => k
  | Col.ExpectedNum k => k
  | c => firstNumIn (colName c).data

/-- The `Expected`-family comparator of `downloadExcel` (script.js lines
623-629): the bare `Expected` sorts first, the rest ascending by
numeric suffix. -/
def expLe (a b : Col) : Bool :=
  if a = Col.Expected then true
  else if b = Col.Expected then false
  else expKey a ≤ expKey b

/-- The fixed metadata prefix of the export (script.js lines 603-604). -/
def standardCols : List Col :=
  [Col.meta "Id", Col.meta "Priority", Col.meta "Project Name",
   Col.meta "Project Description", Col.meta "Date", Col.meta "Location Run",
   Col.meta "User Email", Col.meta "Project Id", Col.meta "Chat Id", Col.meta "Note"]

/-- Union of the column keys of all rows in first-occurrence order (the
JS `Set` built in `downloadExcel`). -/
def allColumnsOf (rows : List Row) : List Col :=
  dedupFirst (rows.flatMap (fun r => r.map Prod.fst))

/-- The chat-column interleaving of `downloadExcel` (script.js lines
607-643): sort each of the `Q`/`R`/`N`/`Expected` families by numeric
suffix, then per pair index emit Qi, Ri, Ni and the matching Expected
column (`Expected` for the first pair, `Expected_i` after). -/
def interleaveChatCols (otherCols : List Col) : List Col :=
  let qCols := sortLe (fun a b => pairNum a ≤ pairNum b) (otherCols.filter isQCol)
  let rCols := sortLe (fun a b => pairNum a ≤ pairNum b) (otherCols.filter isRCol)
  let nCols := sortLe (fun a b => pairNum a ≤ pairNum b) (otherCols.filter isNCol)
  let expectedCols := sortLe expLe (otherCols.filter isExpFamilyCol)
  let maxPairs := max qCols.length (max rCols.length nCols.length)
  (List.range maxPairs).flatMap (fun i =>
    (match qCols[i]? with | some c => [c] | none => []) ++
    (match rCols[i]? with | some c => [c] | none => []) ++
    (match nCols[i]? with | some c => [c] | none => []) ++
    (if i = 0 ∧ expectedCols.contains Col.Expected then [Col.Expected]
     else if expectedCols.contains (Col.ExpectedUnd i) then [Col.ExpectedUnd i]
     else []))

/-- The exported header order of `downloadExcel` (script.js lines
596-645): the pinned metadata prefix followed by the interleaved chat
columns of the non-standard keys. -/
def orderedColumns (rows : List Row) : List Col :=
  standardCols ++
    interleaveChatCols ((allColumnsOf rows).filter (fun c => c ∉ standardCols))

/-- The chat-column set of the C6 instance, in one arrival order. -/
def c6Cols : List Col := [Col.Q 2, Col.Q 1, Col.R 1, Col.R 2, Col.ExpectedUnd 1]

/-- All insertions of an element into a list (helper for the structural
permutation enumeration used to decide the C6 instance). -/
def insertEverywhere {α : Type} (a : α) : List α → List (List α)
  | [] => [[a]]
  | b :: bs => (a :: b :: bs) :: (insertEverywhere a bs).map (fun l => b :: l)

/-- Structural enumeration of the permutations of a list. -/
def permsOf {α : Type} : List α → List (List α)
  | [] => [[]]
  | a :: as => (permsOf as).flatMap (insertEverywhere a)

lemma mem_insertEverywhere {α : Type} (a : α) :
    ∀ (l1 l2 : List α), (l1 ++ a :: l2) ∈ insertEverywhere a (l1 ++ l2) := by
  intro l1
  induction l1 with
  | nil => intro l2; cases l2 <;> simp [insertEverywhere]
  | cons b bs ih =>
    intro l2
    simp only [List.cons_append, insertEverywhere, List.mem_cons]
    right
    exact List.mem_map.mpr ⟨bs ++ a :: l2, ih l2, rfl⟩

lemma mem_permsOf_of_perm {α : Type} :
    ∀ {l l' : List α}, l.Perm l' → l ∈ permsOf l' := by
  intro l l' h
  induction l' generalizing l with
  | nil => simp [List.Perm.eq_nil h, permsOf]
  | cons a as ih =>
    have ha : a ∈ l := h.symm.subset (List.mem_cons_self a as)
    obtain ⟨s, t, rfl⟩ := List.append_of_mem ha
    have hst : (s ++ t).Perm as := by
      have h1 : (s ++ a :: t).Perm (a :: (s ++ t)) := List.perm_middle
      exact (h1.symm.trans h).cons_inv
    simp only [permsOf, List.mem_flatMap]
    exact ⟨s ++ t, ih hst, mem_insertEverywhere a s t⟩

set_option maxRecDepth 8192 in
/-- C6: for any row set whose non-standard columns are exactly
`{Q2, Q1, R1, R2, Expected_1}` in any arrival order, the exported header
is the pinned metadata prefix followed by `Q1, R1, Q2, R2, Expected_1`:
all of pair 1 before all of pair 2, families interleaved by ascending
numeric suffix. -/
theorem C6_export_header_groups_pairs (rows : List Row)
    (h : ((allColumnsOf rows).filter (fun c => c ∉ standardCols)).Perm c6Cols) :
    orderedColumns rows =
      standardCols ++ [Col.Q 1, Col.R 1, Col.Q 2, Col.R 2, Col.ExpectedUnd 1] := by
  have hmem : ((allColumnsOf rows).filter (fun c => c ∉ standardCols)) ∈
      permsOf c6Cols := mem_permsOf_of_perm h
  have hall : ∀ l ∈ permsOf c6Cols,
      interleaveChatCols l = [Col.Q 1, Col.R 1, Col.Q 2, Col.R 2, Col.ExpectedUnd 1] := by
    decide
  rw [orderedColumns, hall _ hmem]

/-- Row set instantiating C6: one row carrying the five chat columns in
the scrambled arrival order. -/
def c6Rows : List Row :=
  [[(Col.Q 2, vStr "q2"), (Col.Q 1, vStr "q1"), (Col.R 1, vStr "r1"),
    (Col.R 2, vStr "r2"), (Col.ExpectedUnd 1, vStr "Yes")]]

theorem C6_export_header_groups_pairs_witness :
    ((allColumnsOf c6Rows).filter (fun c => c ∉ standardCols)).Perm c6Cols ∧
    orderedColumns c6Rows =
      standardCols ++ [Col.Q 1, Col.R 1, Col.Q 2, Col.R 2, Col.ExpectedUnd 1] :=
  ⟨by decide, C6_export_header_groups_pairs c6Rows (by decide)⟩

/-- A fetched exchange as used by `exchangesToRow`: `query`/`response`
may be absent (the source guards with `|| ""`), and `created_at` is
modelled as its `parseInt` result, `none` standing for an unparsable
value (NaN). -/
structure Exchange where
  query : Option String
  response : Option String
  created_at : Option Int
deriving DecidableEq, Repr

/-- Sort key of an exchange: the `parseInt(x.created_at) || 0` idiom. -/
def exKey (ex : Exchange) : Int := ex.created_at.getD 0

/-- The `[...exchanges].sort((a, b) => timeA - timeB)` of
`exchangesToRow`: ascending by `created_at`. -/
def sortedExchanges (exs : List Exchange) : List Exchange :=
  sortLe (fun a b => decide (exKey a ≤ exKey b)) exs

/-- The `x || ""` idiom on an optional string: undefined and the empty
string both give "". -/
def jsOrStr : Option String → String
  | some s => s
  | none => ""

/-- The Expected-placeholder column of pair `k` (script.js lines
576-580): `Expected` for the first pair, `Expected_(k-1)` after. -/
def expColFor (k : Nat) : Col :=
  if k = 1 then Col.Expected else Col.ExpectedUnd (k - 1)

/-- The chat cells written for the (1-based) pairs `k, k+1, ...` from a
sorted exchange list (script.js lines 571-581). -/
def chatCellsFrom : Nat → List Exchange → Row
  | _, [] => []
  | k, ex :: rest =>
    (Col.Q k, vStr (jsOrStr ex.query)) :: (Col.R k, vStr (jsOrStr ex.response)) ::
    (Col.N k, vStr "") :: (expColFor k, vStr "") :: chatCellsFrom (k + 1) rest

/-- Embedding of `exchangesToRow` (script.js lines 545-584).  The JS
reads and post-increments the global `nextId` while building the row;
here the pre-increment value is a parameter and the caller advances it.
The rendering of the current date is the opaque parameter `dateStr`. -/
def exchangesToRow (exs : List Exchange) (nextId : Nat)
    (location userEmail projectId chatId dateStr : String) : Row :=
  [(Col.meta "Id", vNum nextId), (Col.meta "Priority", vStr "None"),
   (Col.meta "Project Name", vStr ""), (Col.meta "Project Description", vStr ""),
   (Col.meta "Date", vStr dateStr), (Col.meta "Location Run", vStr location),
   (Col.meta "User Email", vStr userEmail), (Col.meta "Project Id", vStr projectId),
   (Col.meta "Chat Id", vStr chatId), (Col.meta "Note", vStr "")] ++
  chatCellsFrom 1 (sortedExchanges exs)

/-- The in-memory application state touched by the add-chat flow. -/
structure AppState where
  rows : List Row
  nextId : Nat
deriving DecidableEq, Repr

/-- Outcome of the network request issued by `fetchChatExchanges`:
either a network-level error or an HTTP response carrying the parsed
`exchanges` field of the body (absent when the body lacks it). -/
inductive FetchOutcome where
  | networkError (msg : String)
  | httpResponse (status : Nat) (exchanges : Option (List Exchange))
deriving DecidableEq, Repr

/-- Embedding of `fetchChatExchanges` (script.js lines 519-543): a
non-2xx status throws `HTTP error! status: ...`, a network error is
rethrown, otherwise the parsed body is returned. -/
def fetchChatExchanges : FetchOutcome → Except String (Option (List Exchange))
  | FetchOutcome.networkError msg => Except.error msg
  | FetchOutcome.httpResponse status exs =>
    if 200 ≤ status ∧ status < 300 then Except.ok exs
    else Except.error ("HTTP error! status: " ++ natToDec status)

/-- Embedding of the `addChatForm` submit handler (script.js lines
662-704): on success the new row built from `data.exchanges || []` is
pushed and the success alert shown; on failure the caught error is shown
as `Error adding chat: ...` and the state is untouched. -/
def submitAddChat (st : AppState) (o : FetchOutcome)
    (location userEmail projectId chatId dateStr : String) : AppState × String :=
  match fetchChatExchanges o with
  | Except.ok data =>
    (⟨st.rows ++ [exchangesToRow (data.getD []) st.nextId location userEmail projectId chatId dateStr],
      st.nextId + 1⟩, "Chat added successfully!")
  | Except.error msg => (st, "Error adding chat: " ++ msg)

lemma insertLe_perm {α : Type} (le : α → α → Bool) (a : α) :
    ∀ l : List α, (insertLe le a l).Perm (a :: l) := by
  intro l
  induction l with
  | nil => simp [insertLe]
  | cons b bs ih =>
    by_cases h : le a b = true
    · simp [insertLe, h]
    · simp only [insertLe, h, if_false]
      exact (ih.cons b).trans (List.Perm.swap a b bs)

lemma sortLe_perm {α : Type} (le : α → α → Bool) :
    ∀ l : List α, (sortLe le l).Perm l := by
  intro l
  induction l with
  | nil => simp [sortLe]
  | cons a as ih => exact (insertLe_perm le a (sortLe le as)).trans (ih.cons a)

lemma insertLe_pairwise {α : Type} {le : α → α → Bool}
    (htot : ∀ a b, le a b = true ∨ le b a = true)
    (htrans : ∀ a b c, le a b = true → le b c = true → le a c = true)
    (a : α) : ∀ {l : List α}, l.Pairwise (fun x y => le x y = true) →
      (insertLe le a l).Pairwise (fun x y => le x y = true) := by
  intro l hl
  induction l with
  | nil => simp [insertLe]
  | cons b bs ih =>
    rcases List.pairwise_cons.mp hl with ⟨hb, hbs⟩
    by_cases h : le a b = true
    · simp only [insertLe, h, if_true]
      refine List.pairwise_cons.mpr ⟨?_, hl⟩
      intro x hx
      rcases List.mem_cons.mp hx with rfl | hx
      · exact h
      · exact htrans a b x h (hb x hx)
    · simp only [insertLe, h, if_false]
      refine List.pairwise_cons.mpr ⟨?_, ih hbs⟩
      intro x hx
      have hx2 : x = a ∨ x ∈ bs := by
        simpa using (insertLe_perm le a bs).mem_iff.mp hx
      rcases hx2 with rfl | hx2
      · rcases htot x b with h1 | h1
        · exact absurd h1 h
        · exact h1
      · exact hb x hx2

lemma sortLe_pairwise {α : Type} {le : α → α → Bool}
    (htot : ∀ a b, le a b = true ∨ le b a = true)
    (htrans : ∀ a b c, le a b = true → le b c = true → le a c = true) :
    ∀ l : List α, (sortLe le l).Pairwise (fun x y => le x y = true) := by
  intro l
  induction l with
  | nil => simp [sortLe]
  | cons a as ih => exact insertLe_pairwise htot htrans a ih

lemma expColFor_ne_Q (k j : Nat) : Col.Q j ≠ expColFor k := by
  unfold expColFor
  split <;> simp

lemma expColFor_ne_R (k j : Nat) : Col.R j ≠ expColFor k := by
  unfold expColFor
  split <;> simp

lemma expColFor_ne_N (k j : Nat) : Col.N j ≠ expColFor k := by
  unfold expColFor
  split <;> simp

lemma expColFor_ne_of_lt {k m : Nat} (hk : 1 ≤ k) (hkm : k < m) :
    expColFor m ≠ expColFor k := by
  have hm : m ≠ 1 := by omega
  by_cases hk1 : k = 1
  · simp [expColFor, hm, hk1]
  · simp only [expColFor, hm, hk1, if_false]
    intro heq
    injection heq with h
    omega

lemma chatCells_lookup :
    ∀ (l : List Exchange) (k i : Nat) (hi : i < l.length), 1 ≤ k →
      rlookup (Col.Q (k + i)) (chatCellsFrom k l) =
        some (vStr (jsOrStr (l.get ⟨i, hi⟩).query)) ∧
      rlookup (Col.R (k + i)) (chatCellsFrom k l) =
        some (vStr (jsOrStr (l.get ⟨i, hi⟩).response)) ∧
      rlookup (Col.N (k + i)) (chatCellsFrom k l) = some (vStr "") ∧
      rlookup (expColFor (k + i)) (chatCellsFrom k l) = some (vStr "") := by
  intro l
  induction l with
  | nil => intro k i hi; simp at hi
  | cons ex rest ih =>
    intro k i hi hk
    cases i with
    | zero =>
      refine ⟨?_, ?_, ?_, ?_⟩ <;>
        simp [chatCellsFrom, rlookup, (expColFor_ne_Q k k).symm,
          (expColFor_ne_R k k).symm, (expColFor_ne_N k k).symm]
    | succ i' =>
      have hi' : i' < rest.length := by simpa using Nat.lt_of_succ_lt_succ hi
      have hrec := ih (k + 1) i' hi' (by omega)
      have hQQ : Col.Q (k + (i' + 1)) ≠ Col.Q k := by
        intro heq; injection heq with h; omega
      have hRR : Col.R (k + (i' + 1)) ≠ Col.R k := by
        intro heq; injection heq with h; omega
      have hNN : Col.N (k + (i' + 1)) ≠ Col.N k := by
        intro heq; injection heq with h; omega
      have hEE : expColFor (k + (i' + 1)) ≠ expColFor k :=
        expColFor_ne_of_lt hk (by omega)
      have hred : ∀ c : Col, c ≠ Col.Q k → c ≠ Col.R k → c ≠ Col.N k → c ≠ expColFor k →
          rlookup c (chatCellsFrom k (ex :: rest)) = rlookup c (chatCellsFrom (k + 1) rest) := by
        intro c h1 h2 h3 h4
        simp [chatCellsFrom, rlookup, h1, h2, h3, h4]
      have hstep : k + (i' + 1) = (k + 1) + i' := by omega
      have hgetq : (ex :: rest).get ⟨i' + 1, hi⟩ = rest.get ⟨i', hi'⟩ := rfl
      refine ⟨?_, ?_, ?_, ?_⟩
      · rw [hgetq, hred _ hQQ (by simp) (by simp) (expColFor_ne_Q k (k + (i' + 1))), hstep]
        exact hrec.1
      · rw [hgetq, hred _ (by simp) hRR (by simp) (expColFor_ne_R k (k + (i' + 1))), hstep]
        exact hrec.2.1
      · rw [hred _ (by simp) (by simp) hNN (expColFor_ne_N k (k + (i' + 1))), hstep]
        exact hrec.2.2.1
      · rw [hred _ (expColFor_ne_Q (k + (i' + 1)) k).symm (expColFor_ne_R (k + (i' + 1)) k).symm
          (expColFor_ne_N (k + (i' + 1)) k).symm hEE, hstep]
        exact hrec.2.2.2

lemma expColFor_ne_meta (k : Nat) (s : String) : expColFor k ≠ Col.meta s := by
  unfold expColFor
  split <;> simp

/-- C7: a successful fetch appends exactly one new row built from the
exchanges sorted ascending by `created_at`: pair i+1 holds the i-th
sorted query/response with blank note and blank Expected placeholder,
the row carries the pre-increment Id, and the next Id is advanced. -/
theorem C7_ingest_sorted_exchanges_row (st : AppState) (status : Nat)
    (exs : List Exchange) (location userEmail projectId chatId dateStr : String)
    (i : Nat) (hok : 200 ≤ status ∧ status < 300)
    (hi : i < (sortedExchanges exs).length) :
    (submitAddChat st (FetchOutcome.httpResponse status (some exs))
        location userEmail projectId chatId dateStr).1.rows =
      st.rows ++ [exchangesToRow exs st.nextId location userEmail projectId chatId dateStr] ∧
    (submitAddChat st (FetchOutcome.httpResponse status (some exs))
        location userEmail projectId chatId dateStr).1.nextId = st.nextId + 1 ∧
    rlookup (Col.meta "Id")
        (exchangesToRow exs st.nextId location userEmail projectId chatId dateStr) =
      some (vNum st.nextId) ∧
    (sortedExchanges exs).Perm exs ∧
    (sortedExchanges exs).Pairwise (fun a b => exKey a ≤ exKey b) ∧
    rlookup (Col.Q (i + 1))
        (exchangesToRow exs st.nextId location userEmail projectId chatId dateStr) =
      some (vStr (jsOrStr ((sortedExchanges exs).get ⟨i, hi⟩).query)) ∧
    rlookup (Col.R (i + 1))
        (exchangesToRow exs st.nextId location userEmail projectId chatId dateStr) =
      some (vStr (jsOrStr ((sortedExchanges exs).get ⟨i, hi⟩).response)) ∧
    rlookup (Col.N (i + 1))
        (exchangesToRow exs st.nextId location userEmail projectId chatId dateStr) =
      some (vStr "") ∧
    rlookup (expColFor (i + 1))
        (exchangesToRow exs st.nextId location userEmail projectId chatId dateStr) =
      some (vStr "") := by
  have hbase : ∀ c : Col, (∀ s, c ≠ Col.meta s) →
      rlookup c (exchangesToRow exs st.nextId location userEmail projectId chatId dateStr) =
        rlookup c (chatCellsFrom 1 (sortedExchanges exs)) := by
    intro c hc
    simp [exchangesToRow, rlookup, hc "Id", hc "Priority", hc "Project Name",
      hc "Project Description", hc "Date", hc "Location Run", hc "User Email",
      hc "Project Id", hc "Chat Id", hc "Note"]
  have hcell := chatCells_lookup (sortedExchanges exs) 1 i hi (le_refl 1)
  have h1i : 1 + i = i + 1 := Nat.add_comm 1 i
  rw [h1i] at hcell
  refine ⟨?_, ?_, ?_, sortLe_perm _ exs, ?_, ?_, ?_, ?_, ?_⟩
  · simp [submitAddChat, fetchChatExchanges, hok]
  · simp [submitAddChat, fetchChatExchanges, hok]
  · simp [exchangesToRow, rlookup]
  · have hs := @sortLe_pairwise Exchange (fun a b => decide (exKey a ≤ exKey b))
      (fun a b => by
        rcases le_total (exKey a) (exKey b) with h | h
        · exact Or.inl (decide_eq_true h)
        · exact Or.inr (decide_eq_true h))
      (fun a b c h1 h2 => decide_eq_true (le_trans (of_decide_eq_true h1) (of_decide_eq_true h2)))
      exs
    exact hs.imp (fun h => of_decide_eq_true h)
  · rw [hbase _ (fun s => by simp)]
    exact hcell.1
  · rw [hbase _ (fun s => by simp)]
    exact hcell.2.1
  · rw [hbase _ (fun s => by simp)]
    exact hcell.2.2.1
  · rw [hbase _ (fun s => expColFor_ne_meta (i + 1) s)]
    exact hcell.2.2.2

/-- Concrete state and exchange list for the C7 witness; the exchanges
arrive out of timestamp order. -/
def c7St : AppState := ⟨[], 7⟩

def c7Exs : List Exchange :=
  [⟨some "q2", some "r2", some 2⟩, ⟨some "q1", some "r1", some 1⟩]

theorem C7_ingest_sorted_exchanges_row_witness :
    (200 ≤ 200 ∧ 200 < 300) ∧ 0 < (sortedExchanges c7Exs).length ∧
    (submitAddChat c7St (FetchOutcome.httpResponse 200 (some c7Exs))
        "Production" "u" "p" "c" "d").1.rows =
      c7St.rows ++ [exchangesToRow c7Exs c7St.nextId "Production" "u" "p" "c" "d"] ∧
    rlookup (Col.Q 1) (exchangesToRow c7Exs c7St.nextId "Production" "u" "p" "c" "d") =
      some (vStr "q1") ∧
    rlookup (Col.R 1) (exchangesToRow c7Exs c7St.nextId "Production" "u" "p" "c" "d") =
      some (vStr "r1") ∧
    (sortedExchanges c7Exs).Perm c7Exs := by
  have h := C7_ingest_sorted_exchanges_row c7St 200 c7Exs "Production" "u" "p" "c" "d" 0
    ⟨by decide, by decide⟩ (by decide)
  exact ⟨⟨by decide, by decide⟩, by decide, h.1, h.2.2.2.2.2.1, h.2.2.2.2.2.2.1, h.2.2.2.1⟩

/-- C8: when the fetch fails (it returned `Except.error`), the state is
left unmodified, the error is surfaced as the `Error adding chat:` alert
message, and any non-2xx HTTP response indeed makes `fetchChatExchanges`
throw the `HTTP error!` message. -/
theorem C8_failed_fetch_leaves_rows_unchanged (st : AppState) (o : FetchOutcome)
    (e location userEmail projectId chatId dateStr : String)
    (h : fetchChatExchanges o = Except.error e) :
    (submitAddChat st o location userEmail projectId chatId dateStr).1 = st ∧
    (submitAddChat st o location userEmail projectId chatId dateStr).2 =
      "Error adding chat: " ++ e ∧
    (∀ status exs, ¬(200 ≤ status ∧ status < 300) →
      fetchChatExchanges (FetchOutcome.httpResponse status exs) =
        Except.error ("HTTP error! status: " ++ natToDec status)) ∧
    (∀ msg, fetchChatExchanges (FetchOutcome.networkError msg) = Except.error msg) := by
  refine ⟨?_, ?_, ?_, ?_⟩
  · simp [submitAddChat, h]
  · simp [submitAddChat, h]
  · intro status exs hbad
    simp [fetchChatExchanges, hbad]
  · intro msg
    simp [fetchChatExchanges]

theorem C8_failed_fetch_leaves_rows_unchanged_witness :
    fetchChatExchanges (FetchOutcome.httpResponse 500 none) =
      Except.error "HTTP error! status: 500" ∧
    (submitAddChat c7St (FetchOutcome.httpResponse 500 none) "Production" "u" "p" "c" "d").1 =
      c7St ∧
    (submitAddChat c7St (FetchOutcome.httpResponse 500 none) "Production" "u" "p" "c" "d").2 =
      "Error adding chat: " ++ "HTTP error! status: 500" := by
  have h := C8_failed_fetch_leaves_rows_unchanged c7St (FetchOutcome.httpResponse 500 none)
    "HTTP error! status: 500" "Production" "u" "p" "c" "d" rfl
  exact ⟨rfl, h.1, h.2.1⟩

/-- A picklist entry (part_002): project name and description. -/
structure Project where
  name : String
  description : String
deriving DecidableEq, Repr

/-- The picklist state: the in-memory `projects` array and the JSON
array persisted under the single local-storage key; `addProject` keeps
them in lockstep. -/
structure ProjectStore where
  projects : List Project
  storage : List Project
deriving DecidableEq, Repr

/-- Embedding of `addProject` (part_002 lines 28-44): trim both fields;
if some existing project has the same lower-cased name, alert and return
false without touching anything; otherwise push the new entry and
persist the updated array. -/
def addProject (st : ProjectStore) (name description : String) : Bool × ProjectStore :=
  let newProject : Project := ⟨strTrim name, strTrim description⟩
  if st.projects.any (fun p => lowerStr p.name == lowerStr newProject.name) then
    (false, st)
  else
    (true, ⟨st.projects ++ [newProject], st.projects ++ [newProject]⟩)

/-- C9: a duplicate trimmed name under case-insensitive comparison makes
`addProject` return false and leave both the in-memory array and the
persisted value unchanged; otherwise the trimmed entry is appended to
both; and the add preserves case-insensitive uniqueness of the stored
names. -/
theorem C9_duplicate_project_name_rejected (st : ProjectStore) (name description : String) :
    (st.projects.any (fun p => lowerStr p.name == lowerStr (strTrim name)) = true →
      addProject st name description = (false, st)) ∧
    (st.projects.any (fun p => lowerStr p.name == lowerStr (strTrim name)) = false →
      addProject st name description =
        (true, ⟨st.projects ++ [⟨strTrim name, strTrim description⟩],
          st.projects ++ [⟨strTrim name, strTrim description⟩]⟩)) ∧
    ((st.projects.map (fun p => lowerStr p.name)).Nodup →
      ((addProject st name description).2.projects.map (fun p => lowerStr p.name)).Nodup) := by
  refine ⟨?_, ?_, ?_⟩
  · intro hdup
    simp [addProject, hdup]
  · intro hnew
    simp only [addProject, hnew]
    simp
  · intro hnd
    by_cases hdup : st.projects.any (fun p => lowerStr p.name == lowerStr (strTrim name)) = true
    · simpa [addProject, hdup] using hnd
    · have hnotmem : lowerStr (strTrim name) ∉ st.projects.map (fun p => lowerStr p.name) := by
        intro hmem
        rcases List.mem_map.mp hmem with ⟨p, hp, hpeq⟩
        exact hdup (List.any_eq_true.mpr ⟨p, hp, by simp [hpeq]⟩)
      have hnew : st.projects.any (fun p => lowerStr p.name == lowerStr (strTrim name)) = false :=
        Bool.eq_false_iff.mpr hdup
      simp only [addProject, hnew, Bool.false_eq_true, if_false]
      simpa using List.Nodup.append hnd (List.nodup_singleton _)
        (by simpa [List.disjoint_singleton] using hnotmem)

/-- Concrete store for the C9 witness: one project named Alpha. -/
def c9St : ProjectStore := ⟨[⟨"Alpha", "first"⟩], [⟨"Alpha", "first"⟩]⟩

theorem C9_duplicate_project_name_rejected_witness :
    (c9St.projects.any (fun p => lowerStr p.name == lowerStr (strTrim " alpha ")) = true ∧
      addProject c9St " alpha " "dup" = (false, c9St)) ∧
    (c9St.projects.any (fun p => lowerStr p.name == lowerStr (strTrim "Beta")) = false ∧
      addProject c9St "Beta" " second " =
        (true, ⟨c9St.projects ++ [⟨"Beta", "second"⟩], c9St.projects ++ [⟨"Beta", "second"⟩]⟩)) ∧
    ((c9St.projects.map (fun p => lowerStr p.name)).Nodup ∧
      ((addProject c9St "Beta" " second ").2.projects.map (fun p => lowerStr p.name)).Nodup) := by
  refine ⟨⟨by decide, (C9_duplicate_project_name_rejected c9St " alpha " "dup").1 (by decide)⟩,
    ⟨by decide, ?_⟩, by decide,
    (C9_duplicate_project_name_rejected c9St "Beta" " second ").2.2 (by decide)⟩
  exact (C9_duplicate_project_name_rejected c9St "Beta" " second ").2.1 (by decide)

/-- JS truthiness of a cell value: 0, false and the empty string are
falsy. -/
def truthyV : Value → Bool
  | vStr s => decide (s ≠ "")
  | vNum n => decide (n ≠ 0)
  | vBool b => b

/-- The per-cell serialization `row[col] || ""` of `downloadExcel`
(script.js line 650): a missing or falsy cell is written as the empty
string, any other value is written unchanged. -/
def exportCell (r : Row) (c : Col) : Value :=
  match rlookup c r with
  | some v => if truthyV v then v else vStr ""
  | none => vStr ""

/-- One exported data row of `downloadExcel` (script.js lines 648-652):
the ordered columns mapped through the cell serialization. -/
def exportRowData (cols : List Col) (r : Row) : List Value :=
  cols.map (fun c => exportCell r c)

/-- The full exported table: header row order plus one data row per
in-memory row. -/
def wsDataRows (rows : List Row) : List (List Value) :=
  rows.map (fun r => exportRowData (orderedColumns rows) r)

/-- C10: every falsy cell value, in particular the number 0, is exported
as the empty string, so a 0-valued cell (for example an Id of 0) is not
preserved by the export. -/
theorem C10_falsy_cells_export_empty (r : Row) (c : Col) (v : Value)
    (h : rlookup c r = some v) (hf : truthyV v = false) :
    exportCell r c = vStr "" ∧
    (v = vNum 0 → exportCell r c ≠ v) ∧
    (∀ cols : List Col, ∀ i : Nat, cols[i]? = some c →
      (exportRowData cols r)[i]? = some (vStr "")) := by
  have hcell : exportCell r c = vStr "" := by
    simp [exportCell, h, hf]
  refine ⟨hcell, ?_, ?_⟩
  · rintro rfl
    rw [hcell]
    simp
  · intro cols i hci
    simp [exportRowData, hci, hcell]

/-- A row whose Id is the number 0, for the C10 witness. -/
def c10Row : Row := [(Col.meta "Id", vNum 0)]

theorem C10_falsy_cells_export_empty_witness :
    rlookup (Col.meta "Id") c10Row = some (vNum 0) ∧
    truthyV (vNum 0) = false ∧
    (exportCell c10Row (Col.meta "Id") = vStr "" ∧
      (vNum 0 = vNum 0 → exportCell c10Row (Col.meta "Id") ≠ vNum 0) ∧
      (∀ cols : List Col, ∀ i : Nat, cols[i]? = some (Col.meta "Id") →
        (exportRowData cols c10Row)[i]? = some (vStr ""))) :=
  ⟨by decide, by decide,
    C10_falsy_cells_export_empty c10Row (Col.meta "Id") (vNum 0) (by decide) (by decide)⟩

lemma dropWhile_eq_self_of_head {p : Char → Bool} :
    ∀ l : List Char, (∀ a, l.head? = some a → p a = false) → l.dropWhile p = l := by
  intro l h
  cases l with
  | nil => rfl
  | cons a as =>
    have ha := h a rfl
    simp [List.dropWhile_cons, ha]

lemma head?_dropWhile_false {p : Char → Bool} :
    ∀ l : List Char, ∀ a, (l.dropWhile p).head? = some a → p a = false := by
  intro l
  induction l with
  | nil => intro a h; simp at h
  | cons b bs ih =>
    intro a h
    by_cases hb : p b
    · rw [List.dropWhile_cons, if_pos hb] at h
      exact ih a h
    · rw [List.dropWhile_cons, if_neg hb] at h
      simp at h
      rw [← h]
      exact Bool.eq_false_iff.mpr hb

lemma exists_dropWhile_append {p : Char → Bool} :
    ∀ l : List Char, ∃ t, l = t ++ l.dropWhile p := by
  intro l
  induction l with
  | nil => exact ⟨[], rfl⟩
  | cons a as ih =>
    by_cases ha : p a
    · obtain ⟨t, ht⟩ := ih
      refine ⟨a :: t, ?_⟩
      rw [List.dropWhile_cons, if_pos ha, List.cons_append, ← ht]
    · exact ⟨[], by rw [List.dropWhile_cons, if_neg ha, List.nil_append]⟩

lemma dropWhile_idem {p : Char → Bool} (l : List Char) :
    (l.dropWhile p).dropWhile p = l.dropWhile p :=
  dropWhile_eq_self_of_head _ (fun a h => head?_dropWhile_false l a h)

lemma trimChars_idem (l : List Char) : trimChars (trimChars l) = trimChars l := by
  set A := l.dropWhile isWsChar with hA
  set X := A.reverse.dropWhile isWsChar with hX
  have htc : trimChars l = X.reverse := rfl
  cases hXr : X.reverse with
  | nil =>
    rw [htc, hXr]
    rfl
  | cons a as =>
    have hXin : X.reverse.dropWhile isWsChar = X.reverse := by
      apply dropWhile_eq_self_of_head
      intro b hb
      obtain ⟨t, ht⟩ := @exists_dropWhile_append isWsChar A.reverse
      have hArev : A = X.reverse ++ t.reverse := by
        have := congrArg List.reverse ht
        simpa [hX] using this
      have hheadA : A.head? = some a := by
        rw [hArev, hXr]
        rfl
      have hwa : isWsChar a = false := head?_dropWhile_false l a (by rw [← hA]; exact hheadA)
      rw [hXr] at hb
      simp at hb
      rw [← hb]
      exact hwa
    rw [htc]
    show ((X.reverse.dropWhile isWsChar).reverse.dropWhile isWsChar).reverse = X.reverse
    rw [hXin, List.reverse_reverse, dropWhile_idem]

lemma strTrim_idem (s : String) : strTrim (strTrim s) = strTrim s := by
  show String.mk (trimChars (String.mk (trimChars s.data)).data) = String.mk (trimChars s.data)
  rw [show (String.mk (trimChars s.data)).data = trimChars s.data from rfl, trimChars_idem]

lemma trimChars_of_no_ws {l : List Char} (h : ∀ c ∈ l, isWsChar c = false) :
    trimChars l = l := by
  unfold trimChars
  have h1 : l.dropWhile isWsChar = l := by
    apply dropWhile_eq_self_of_head
    intro a ha
    exact h a (by cases l with
      | nil => simp at ha
      | cons b bs => simp at ha; rw [ha]; exact List.mem_cons_self _ _)
  rw [h1]
  have h2 : l.reverse.dropWhile isWsChar = l.reverse := by
    apply dropWhile_eq_self_of_head
    intro a ha
    refine h a ?_
    have : a ∈ l.reverse := by
      cases hr : l.reverse with
      | nil => rw [hr] at ha; simp at ha
      | cons b bs =>
        rw [hr] at ha
        simp at ha
        rw [ha]
        exact List.mem_cons_self _ _
    simpa using this
  rw [h2, List.reverse_reverse]

lemma digitChar_not_ws (n : Nat) : isWsChar (digitChar n) = false := by
  unfold digitChar
  split <;> decide

lemma natToDecAux_ne_nil : ∀ fuel n acc, natToDecAux fuel n acc ≠ [] := by
  intro fuel
  induction fuel with
  | zero => intro n acc; simp [natToDecAux]
  | succ f ih =>
    intro n acc
    by_cases h : n < 10
    · simp [natToDecAux, h]
    · simp only [natToDecAux, h, if_false]
      exact ih (n / 10) (digitChar (n % 10) :: acc)

lemma natToDecAux_no_ws :
    ∀ fuel n acc, (∀ c ∈ acc, isWsChar c = false) →
      ∀ c ∈ natToDecAux fuel n acc, isWsChar c = false := by
  intro fuel
  induction fuel with
  | zero =>
    intro n acc hacc c hc
    simp [natToDecAux] at hc
    rcases hc with rfl | hc
    · exact digitChar_not_ws n
    · exact hacc c hc
  | succ f ih =>
    intro n acc hacc c hc
    by_cases h : n < 10
    · simp only [natToDecAux, h, if_true] at hc
      rcases List.mem_cons.mp hc with rfl | hc
      · exact digitChar_not_ws n
      · exact hacc c hc
    · simp only [natToDecAux, h, if_false] at hc
      refine ih (n / 10) (digitChar (n % 10) :: acc) ?_ c hc
      intro d hd
      rcases List.mem_cons.mp hd with rfl | hd
      · exact digitChar_not_ws (n % 10)
      · exact hacc d hd

lemma mk_ne_empty_of_ne_nil {l : List Char} (h : l ≠ []) : String.mk l ≠ "" := by
  intro heq
  exact h (congrArg String.data heq)

lemma strTrim_natToDec (n : Nat) : strTrim (natToDec n) = natToDec n := by
  show String.mk (trimChars (natToDecAux n n [])) = String.mk (natToDecAux n n [])
  rw [trimChars_of_no_ws (natToDecAux_no_ws n n [] (by simp))]

lemma natToDec_ne_empty (n : Nat) : natToDec n ≠ "" :=
  mk_ne_empty_of_ne_nil (natToDecAux_ne_nil n n [])

lemma strTrim_intToDec (i : Int) : strTrim (intToDec i) = intToDec i := by
  unfold intToDec
  by_cases h : i < 0
  · simp only [h, if_true]
    show String.mk (trimChars _) = _
    rw [trimChars_of_no_ws]
    intro c hc
    rcases List.mem_cons.mp hc with rfl | hc
    · decide
    · exact natToDecAux_no_ws i.natAbs i.natAbs [] (by simp) c hc
  · simp only [h, if_false]
    exact strTrim_natToDec i.toNat

lemma intToDec_ne_empty (i : Int) : intToDec i ≠ "" := by
  unfold intToDec
  by_cases h : i < 0
  · simp only [h, if_true]
    exact mk_ne_empty_of_ne_nil (by simp)
  · simp only [h, if_false]
    exact natToDec_ne_empty i.toNat

/-- A non-blank cell value string-coerces to a string whose trim is
non-empty. -/
lemma toStr_nonblank {v : Value} (h : isBlank (some v) = false) :
    strTrim (toStr v) ≠ "" := by
  cases v with
  | vStr s =>
    simp only [isBlank, decide_eq_false_iff_not] at h
    exact h
  | vNum i =>
    rw [show toStr (vNum i) = intToDec i from rfl, strTrim_intToDec]
    exact intToDec_ne_empty i
  | vBool b => cases b <;> decide

/-- A turn without the positional `exchangeIndex` field: role, text,
expectation, note. -/
structure MsgC where
  role : Role
  text : String
  expected : Option String
  note : Option String
deriving DecidableEq, Repr

/-- Forget the `exchangeIndex` of a decoded turn. -/
def stripIdx (m : Msg) : MsgC := ⟨m.role, m.text, m.expected, m.note⟩

/-- One re-encoded exchange: query, response, expectation, note. -/
structure EncExchange where
  q : String
  r : String
  e : Option String
  n : Option String
deriving DecidableEq, Repr

/-- Modelled from the spec: the repository has no inverse of
`rowToMessages`; the spec postulates "re-encoding the turn sequence back
into columns" (§8) via "the inverse transform for export column
ordering" (§2).  Turns are grouped into exchanges: a user turn opens an
exchange and absorbs an immediately following assistant turn, a lone
assistant turn becomes a response-only exchange. -/
def msgsToExchanges : List Msg → List EncExchange
  | [] => []
  | [m] =>
    if m.role = Role.user then [⟨m.text, "", none, none⟩]
    else [⟨"", m.text, m.expected, m.note⟩]
  | m :: m2 :: rest2 =>
    if m.role = Role.user then
      if m2.role = Role.assistant then
        ⟨m.text, m2.text, m2.expected, m2.note⟩ :: msgsToExchanges rest2
      else
        ⟨m.text, "", none, none⟩ :: msgsToExchanges (m2 :: rest2)
    else
      ⟨"", m.text, m.expected, m.note⟩ :: msgsToExchanges (m2 :: rest2)

/-- Modelled from the spec: write exchanges back under the export column
convention of §4.5 and `exchangesToRow` — pair k gets `Qk`, `Rk`, `Nk`
and the `Expected`/`Expected_(k-1)` placeholder, blanks standing for
absent expectation or note. -/
def encRowFrom : Nat → List EncExchange → Row
  | _, [] => []
  | k, ex :: rest =>
    (Col.Q k, vStr ex.q) :: (Col.R k, vStr ex.r) ::
    (Col.N k, vStr (jsOrStr ex.n)) :: (expColFor k, vStr (jsOrStr ex.e)) ::
    encRowFrom (k + 1) rest

/-- Modelled from the spec: full re-encoding of a decoded turn sequence
into a row. -/
def encodeMsgs (msgs : List Msg) : Row := encRowFrom 1 (msgsToExchanges msgs)

/-- A gapped row: pair 1 blank, pair 2 populated. -/
def c2GapRow : Row := [(Col.Q 2, vStr "x"), (Col.R 2, vStr "y")]

/-- C2 counterexample: on the gapped row the re-encoding renumbers the
assistant turn's `exchangeIndex` from 1 to 0, so decoding the re-encoded
row does not reproduce the original turn sequence. -/
theorem C2_roundtrip_counterexample :
    rowToMessages (encodeMsgs (rowToMessages c2GapRow)) ≠ rowToMessages c2GapRow := by
  decide

/-- The turn contents pair `k` of a re-encoded row decodes to. -/
def exchMsgsC (ex : EncExchange) : List MsgC :=
  (if strTrim ex.q = "" then [] else [⟨Role.user, ex.q, none, none⟩]) ++
  (if strTrim ex.r = "" then [] else [⟨Role.assistant, ex.r, ex.e, ex.n⟩])

/-- Well-formed optional annotation: absent, or already trimmed and
non-empty (the shape `rowToMessages` produces). -/
def goodOpt : Option String → Prop
  | none => True
  | some s => strTrim s = s ∧ s ≠ ""

/-- Non-blank text. -/
def goodText (s : String) : Prop := strTrim s ≠ ""

/-- Shape invariant of decoded turns. -/
def WFmsg (m : Msg) : Prop :=
  goodText m.text ∧ goodOpt m.expected ∧ goodOpt m.note ∧
  (m.role = Role.user → m.expected = none ∧ m.note = none)

/-- Shape invariant of re-encoded exchanges. -/
def WFex (ex : EncExchange) : Prop :=
  (ex.q = "" ∨ goodText ex.q) ∧ (ex.r = "" ∨ goodText ex.r) ∧
  ¬(ex.q = "" ∧ ex.r = "") ∧ goodOpt ex.e ∧ goodOpt ex.n

lemma goodOpt_none : goodOpt none := trivial

lemma goodOpt_trim {o : Option Value} (h : isBlank o = false) :
    goodOpt (some (strTrim (toStrO o))) := by
  cases o with
  | none => simp [isBlank] at h
  | some v => exact ⟨strTrim_idem (toStr v), toStr_nonblank h⟩

lemma expectedValueAt_goodOpt (row : Row) (k : Nat) : goodOpt (expectedValueAt row k) := by
  unfold expectedValueAt
  by_cases hp : isBlank (if k = 1 then rlookup Col.Expected row
      else rlookup (Col.ExpectedUnd (k - 1)) row)
  · by_cases hf : isBlank (rlookup (Col.ExpectedNum k) row)
    · simp only [hp, if_true, hf]
      exact goodOpt_none
    · simp only [hp, if_true, hf, Bool.false_eq_true, if_false]
      exact goodOpt_trim (Bool.eq_false_iff.mpr hf)
  · simp only [hp, Bool.false_eq_true, if_false]
    exact goodOpt_trim (Bool.eq_false_iff.mpr hp)

lemma noteValueAt_goodOpt (row : Row) (k : Nat) : goodOpt (noteValueAt row k) := by
  unfold noteValueAt
  by_cases hn : isBlank (rlookup (Col.N k) row)
  · simp only [hn, if_true]
    exact goodOpt_none
  · simp only [hn, Bool.false_eq_true, if_false]
    exact goodOpt_trim (Bool.eq_false_iff.mpr hn)

lemma toStrO_goodText {o : Option Value} (h : isBlank o = false) : goodText (toStrO o) := by
  cases o with
  | none => simp [isBlank] at h
  | some v => exact toStr_nonblank h

lemma pairMsgs_WF (row : Row) (k : Nat) : ∀ m ∈ pairMsgs row k, WFmsg m := by
  intro m hm
  simp only [pairMsgs] at hm
  rcases List.mem_append.mp hm with h | h
  · by_cases hq : isBlank (rlookup (Col.Q k) row)
    · simp [hq] at h
    · rw [if_neg (by simpa using hq)] at h
      simp at h
      subst h
      exact ⟨toStrO_goodText (Bool.eq_false_iff.mpr hq), goodOpt_none, goodOpt_none,
        fun _ => ⟨rfl, rfl⟩⟩
  · by_cases hr : isBlank (rlookup (Col.R k) row)
    · simp [hr] at h
    · rw [if_neg (by simpa using hr)] at h
      simp at h
      subst h
      refine ⟨toStrO_goodText (Bool.eq_false_iff.mpr hr), expectedValueAt_goodOpt row k,
        noteValueAt_goodOpt row k, fun habs => ?_⟩
      simp at habs

lemma rowToMessagesAux_WF (row : Row) :
    ∀ fuel k, ∀ m ∈ rowToMessagesAux row fuel k, WFmsg m := by
  intro fuel
  induction fuel with
  | zero => intro k m hm; simp [rowToMessagesAux] at hm
  | succ f ih =>
    intro k m hm
    by_cases h : stopAt row k
    · simp [rowToMessagesAux, h] at hm
    · simp only [rowToMessagesAux, h, Bool.false_eq_true, if_false] at hm
      rcases List.mem_append.mp hm with h1 | h1
      · exact pairMsgs_WF row k m h1
      · exact ih (k + 1) m h1

lemma rowToMessages_WF (row : Row) : ∀ m ∈ rowToMessages row, WFmsg m :=
  rowToMessagesAux_WF row (maxPairIdx row + 1) 1

lemma goodText_ne_empty {s : String} (h : goodText s) : s ≠ "" := by
  intro heq
  subst heq
  exact h rfl

lemma msgsToExchanges_WF :
    ∀ msgs : List Msg, (∀ m ∈ msgs, WFmsg m) → ∀ ex ∈ msgsToExchanges msgs, WFex ex := by
  intro msgs
  induction msgs using msgsToExchanges.induct with
  | case1 =>
    intro _ ex hex
    simp [msgsToExchanges] at hex
  | case2 m hu =>
    intro hwf ex hex
    have hm := hwf m (List.mem_cons_self _ _)
    simp only [msgsToExchanges, hu, if_true] at hex
    simp at hex
    subst hex
    refine ⟨Or.inr hm.1, Or.inl rfl, ?_, goodOpt_none, goodOpt_none⟩
    rintro ⟨hq, -⟩
    exact goodText_ne_empty hm.1 hq
  | case3 m hu =>
    intro hwf ex hex
    have hm := hwf m (List.mem_cons_self _ _)
    simp only [msgsToExchanges, hu] at hex
    simp at hex
    subst hex
    refine ⟨Or.inl rfl, Or.inr hm.1, ?_, hm.2.1, hm.2.2.1⟩
    rintro ⟨-, hr⟩
    exact goodText_ne_empty hm.1 hr
  | case4 m m2 rest2 hu ha ih =>
    intro hwf ex hex
    have hm := hwf m (List.mem_cons_self _ _)
    have hm2 := hwf m2 (List.mem_cons_of_mem _ (List.mem_cons_self _ _))
    simp only [msgsToExchanges, hu, ha, if_true] at hex
    rcases List.mem_cons.mp hex with rfl | hex
    · refine ⟨Or.inr hm.1, Or.inr hm2.1, ?_, hm2.2.1, hm2.2.2.1⟩
      rintro ⟨hq, -⟩
      exact goodText_ne_empty hm.1 hq
    · exact ih (fun x hx => hwf x (List.mem_cons_of_mem _ (List.mem_cons_of_mem _ hx))) ex hex
  | case5 m m2 rest2 hu ha ih =>
    intro hwf ex hex
    have hm := hwf m (List.mem_cons_self _ _)
    simp only [msgsToExchanges, hu, if_true] at hex
    rw [if_neg ha] at hex
    rcases List.mem_cons.mp hex with rfl | hex
    · refine ⟨Or.inr hm.1, Or.inl rfl, ?_, goodOpt_none, goodOpt_none⟩
      rintro ⟨hq, -⟩
      exact goodText_ne_empty hm.1 hq
    · exact ih (fun x hx => hwf x (List.mem_cons_of_mem _ hx)) ex hex
  | case6 m m2 rest2 hu ih =>
    intro hwf ex hex
    have hm := hwf m (List.mem_cons_self _ _)
    simp only [msgsToExchanges] at hex
    rw [if_neg hu] at hex
    rcases List.mem_cons.mp hex with rfl | hex
    · refine ⟨Or.inl rfl, Or.inr hm.1, ?_, hm.2.1, hm.2.2.1⟩
      rintro ⟨-, hr⟩
      exact goodText_ne_empty hm.1 hr
    · exact ih (fun x hx => hwf x (List.mem_cons_of_mem _ hx)) ex hex

lemma strTrim_empty : strTrim "" = "" := rfl

lemma role_assistant_of_not_user {m : Msg} (hu : ¬m.role = Role.user) :
    m.role = Role.assistant := by
  cases h : m.role with
  | user => exact absurd h hu
  | assistant => rfl

lemma exchMsgs_group :
    ∀ msgs : List Msg, (∀ m ∈ msgs, WFmsg m) →
      (msgsToExchanges msgs).flatMap exchMsgsC = msgs.map stripIdx := by
  intro msgs
  induction msgs using msgsToExchanges.induct with
  | case1 =>
    intro _
    simp [msgsToExchanges]
  | case2 m hu =>
    intro hwf
    have hm := hwf m (List.mem_cons_self _ _)
    have hgt : strTrim m.text ≠ "" := hm.1
    have hen := hm.2.2.2 hu
    simp [msgsToExchanges, hu, exchMsgsC, stripIdx, hgt, strTrim_empty, hen.1, hen.2]
  | case3 m hu =>
    intro hwf
    have hm := hwf m (List.mem_cons_self _ _)
    have hgt : strTrim m.text ≠ "" := hm.1
    have hrole := role_assistant_of_not_user hu
    simp [msgsToExchanges, hu, exchMsgsC, stripIdx, hgt, strTrim_empty, hrole]
  | case4 m m2 rest2 hu ha ih =>
    intro hwf
    have hm := hwf m (List.mem_cons_self _ _)
    have hm2 := hwf m2 (List.mem_cons_of_mem _ (List.mem_cons_self _ _))
    have hgt : strTrim m.text ≠ "" := hm.1
    have hgt2 : strTrim m2.text ≠ "" := hm2.1
    have hen := hm.2.2.2 hu
    have hih := ih (fun x hx => hwf x (List.mem_cons_of_mem _ (List.mem_cons_of_mem _ hx)))
    simp [msgsToExchanges, hu, ha, exchMsgsC, stripIdx, hgt, hgt2, hen.1, hen.2, hih]
  | case5 m m2 rest2 hu ha ih =>
    intro hwf
    have hm := hwf m (List.mem_cons_self _ _)
    have hgt : strTrim m.text ≠ "" := hm.1
    have hen := hm.2.2.2 hu
    have hih := ih (fun x hx => hwf x (List.mem_cons_of_mem _ hx))
    simp only [msgsToExchanges, hu, if_true]
    rw [if_neg ha]
    simp [exchMsgsC, stripIdx, hgt, strTrim_empty, hen.1, hen.2, hih, hu.symm]
  | case6 m m2 rest2 hu ih =>
    intro hwf
    have hm := hwf m (List.mem_cons_self _ _)
    have hgt : strTrim m.text ≠ "" := hm.1
    have hrole := role_assistant_of_not_user hu
    have hih := ih (fun x hx => hwf x (List.mem_cons_of_mem _ hx))
    simp [msgsToExchanges, hu, exchMsgsC, stripIdx, hgt, strTrim_empty, hrole, hih]

lemma expColFor_ne_Num (k j : Nat) : expColFor k ≠ Col.ExpectedNum j := by
  unfold expColFor
  split <;> simp

lemma pairIdxOf_expColFor (k : Nat) : pairIdxOf (expColFor k) = 0 := by
  unfold expColFor
  split <;> rfl

lemma rlookup_encRow_Num_none :
    ∀ (exs : List EncExchange) (k j : Nat),
      rlookup (Col.ExpectedNum j) (encRowFrom k exs) = none := by
  intro exs
  induction exs with
  | nil => intro k j; rfl
  | cons ex rest ih =>
    intro k j
    simp only [encRowFrom, rlookup]
    rw [if_neg (by simp), if_neg (by simp), if_neg (by simp),
      if_neg (fun h => expColFor_ne_Num k j h.symm)]
    exact ih (k + 1) j

lemma rlookup_encRow_head_Q (ex : EncExchange) (rest : List EncExchange) (k : Nat) :
    rlookup (Col.Q k) (encRowFrom k (ex :: rest)) = some (vStr ex.q) := by
  simp [encRowFrom, rlookup]

lemma rlookup_encRow_head_R (ex : EncExchange) (rest : List EncExchange) (k : Nat) :
    rlookup (Col.R k) (encRowFrom k (ex :: rest)) = some (vStr ex.r) := by
  simp [encRowFrom, rlookup]

lemma rlookup_encRow_head_N (ex : EncExchange) (rest : List EncExchange) (k : Nat) :
    rlookup (Col.N k) (encRowFrom k (ex :: rest)) = some (vStr (jsOrStr ex.n)) := by
  simp [encRowFrom, rlookup]

lemma rlookup_encRow_head_exp (ex : EncExchange) (rest : List EncExchange) (k : Nat) :
    rlookup (expColFor k) (encRowFrom k (ex :: rest)) = some (vStr (jsOrStr ex.e)) := by
  simp [encRowFrom, rlookup, (expColFor_ne_Q k k).symm, (expColFor_ne_R k k).symm,
    (expColFor_ne_N k k).symm]

lemma rlookup_encRow_cons_above (ex : EncExchange) (rest : List EncExchange) (k : Nat)
    {c : Col} (h1 : c ≠ Col.Q k) (h2 : c ≠ Col.R k) (h3 : c ≠ Col.N k)
    (h4 : c ≠ expColFor k) :
    rlookup c (encRowFrom k (ex :: rest)) = rlookup c (encRowFrom (k + 1) rest) := by
  simp [encRowFrom, rlookup, h1, h2, h3, h4]

lemma ExpectedUnd_ne_expColFor {k j : Nat} (hk : 1 ≤ k) (hj : k + 1 ≤ j) :
    Col.ExpectedUnd (j - 1) ≠ expColFor k := by
  unfold expColFor
  by_cases hk1 : k = 1
  · simp [hk1]
  · rw [if_neg hk1]
    intro heq
    injection heq with h
    omega

lemma expectedValueAt_congr_above {row row2 : Row} {j : Nat} (hj : 2 ≤ j)
    (hu : rlookup (Col.ExpectedUnd (j - 1)) row = rlookup (Col.ExpectedUnd (j - 1)) row2)
    (hn : rlookup (Col.ExpectedNum j) row = rlookup (Col.ExpectedNum j) row2) :
    expectedValueAt row j = expectedValueAt row2 j := by
  unfold expectedValueAt
  rw [if_neg (by omega : ¬j = 1), hu, hn, if_neg (by omega : ¬j = 1)]

lemma noteValueAt_congr {row row2 : Row} {j : Nat}
    (hn : rlookup (Col.N j) row = rlookup (Col.N j) row2) :
    noteValueAt row j = noteValueAt row2 j := by
  unfold noteValueAt
  rw [hn]

lemma pairMsgs_congr {row row2 : Row} {j : Nat}
    (hq : rlookup (Col.Q j) row = rlookup (Col.Q j) row2)
    (hr : rlookup (Col.R j) row = rlookup (Col.R j) row2)
    (he : expectedValueAt row j = expectedValueAt row2 j)
    (hn : noteValueAt row j = noteValueAt row2 j) :
    pairMsgs row j = pairMsgs row2 j := by
  unfold pairMsgs
  rw [hq, hr, he, hn]

lemma blankPair_congr {row row2 : Row} {j : Nat}
    (hq : rlookup (Col.Q j) row = rlookup (Col.Q j) row2)
    (hr : rlookup (Col.R j) row = rlookup (Col.R j) row2) :
    blankPair row j = blankPair row2 j := by
  unfold blankPair
  rw [hq, hr]

lemma encRow_lookups_above (ex : EncExchange) (rest : List EncExchange) {k j : Nat}
    (hk : 1 ≤ k) (hj : k + 1 ≤ j) :
    rlookup (Col.Q j) (encRowFrom k (ex :: rest)) =
      rlookup (Col.Q j) (encRowFrom (k + 1) rest) ∧
    rlookup (Col.R j) (encRowFrom k (ex :: rest)) =
      rlookup (Col.R j) (encRowFrom (k + 1) rest) ∧
    rlookup (Col.N j) (encRowFrom k (ex :: rest)) =
      rlookup (Col.N j) (encRowFrom (k + 1) rest) ∧
    rlookup (Col.ExpectedUnd (j - 1)) (encRowFrom k (ex :: rest)) =
      rlookup (Col.ExpectedUnd (j - 1)) (encRowFrom (k + 1) rest) := by
  refine ⟨?_, ?_, ?_, ?_⟩
  · exact rlookup_encRow_cons_above ex rest k
      (by intro heq; injection heq with h; omega) (by simp) (by simp)
      (expColFor_ne_Q k j)
  · exact rlookup_encRow_cons_above ex rest k (by simp)
      (by intro heq; injection heq with h; omega) (by simp)
      (expColFor_ne_R k j)
  · exact rlookup_encRow_cons_above ex rest k (by simp) (by simp)
      (by intro heq; injection heq with h; omega)
      (expColFor_ne_N k j)
  · exact rlookup_encRow_cons_above ex rest k (by simp) (by simp) (by simp)
      (ExpectedUnd_ne_expColFor hk hj)

lemma aux_encRow_shift (ex : EncExchange) (rest : List EncExchange) (k : Nat)
    (hk : 1 ≤ k) :
    ∀ fuel j, k + 1 ≤ j →
      rowToMessagesAux (encRowFrom k (ex :: rest)) fuel j =
        rowToMessagesAux (encRowFrom (k + 1) rest) fuel j := by
  intro fuel
  induction fuel with
  | zero => intro j hj; rfl
  | succ f ih =>
    intro j hj
    have hlj := encRow_lookups_above ex rest hk hj
    have hlj1 := encRow_lookups_above ex rest hk (show k + 1 ≤ j + 1 by omega)
    have hnum : rlookup (Col.ExpectedNum j) (encRowFrom k (ex :: rest)) =
        rlookup (Col.ExpectedNum j) (encRowFrom (k + 1) rest) := by
      rw [rlookup_encRow_Num_none, rlookup_encRow_Num_none]
    have hstop : stopAt (encRowFrom k (ex :: rest)) j =
        stopAt (encRowFrom (k + 1) rest) j := by
      unfold stopAt
      rw [blankPair_congr hlj.1 hlj.2.1, blankPair_congr hlj1.1 hlj1.2.1]
    have hpm : pairMsgs (encRowFrom k (ex :: rest)) j =
        pairMsgs (encRowFrom (k + 1) rest) j :=
      pairMsgs_congr hlj.1 hlj.2.1
        (expectedValueAt_congr_above (by omega) hlj.2.2.2 hnum)
        (noteValueAt_congr hlj.2.2.1)
    simp only [rowToMessagesAux, hstop, hpm, ih (j + 1) (by omega)]

lemma expectedValueAt_encRow_head (ex : EncExchange) (rest : List EncExchange) (k : Nat)
    (hk : 1 ≤ k) (he : goodOpt ex.e) :
    expectedValueAt (encRowFrom k (ex :: rest)) k = ex.e := by
  have hnum : rlookup (Col.ExpectedNum k) (encRowFrom k (ex :: rest)) = none :=
    rlookup_encRow_Num_none (ex :: rest) k k
  have hprim : (if k = 1 then rlookup Col.Expected (encRowFrom k (ex :: rest))
      else rlookup (Col.ExpectedUnd (k - 1)) (encRowFrom k (ex :: rest))) =
      some (vStr (jsOrStr ex.e)) := by
    by_cases hk1 : k = 1
    · subst hk1
      rw [if_pos rfl, show Col.Expected = expColFor 1 from rfl, rlookup_encRow_head_exp]
    · rw [if_neg hk1, show Col.ExpectedUnd (k - 1) = expColFor k from by
        unfold expColFor; rw [if_neg hk1], rlookup_encRow_head_exp]
  unfold expectedValueAt
  rw [hprim]
  cases hee : ex.e with
  | none =>
    simp [jsOrStr, isBlank, strTrim_empty, hnum]
  | some s =>
    rw [hee] at he
    simp [jsOrStr, isBlank, toStrO, toStr, he.1, he.2]

lemma noteValueAt_encRow_head (ex : EncExchange) (rest : List EncExchange) (k : Nat)
    (hn : goodOpt ex.n) :
    noteValueAt (encRowFrom k (ex :: rest)) k = ex.n := by
  unfold noteValueAt
  rw [rlookup_encRow_head_N]
  cases hee : ex.n with
  | none =>
    simp [jsOrStr, isBlank, strTrim_empty]
  | some s =>
    rw [hee] at hn
    simp [jsOrStr, isBlank, toStrO, toStr, hn.1, hn.2]

lemma pairMsgs_encRow_head (ex : EncExchange) (rest : List EncExchange) (k : Nat)
    (hk : 1 ≤ k) (hwf : WFex ex) :
    (pairMsgs (encRowFrom k (ex :: rest)) k).map stripIdx = exchMsgsC ex ∧
    stopAt (encRowFrom k (ex :: rest)) k = false := by
  obtain ⟨hq, hr, hqr, he, hn⟩ := hwf
  constructor
  · unfold pairMsgs
    rw [rlookup_encRow_head_Q, rlookup_encRow_head_R,
      expectedValueAt_encRow_head ex rest k hk he, noteValueAt_encRow_head ex rest k hn]
    rw [List.map_append]
    unfold exchMsgsC
    congr 1
    · by_cases hqb : strTrim ex.q = ""
      · simp [isBlank, hqb]
      · simp [isBlank, hqb, stripIdx, toStrO, toStr]
    · by_cases hrb : strTrim ex.r = ""
      · simp [isBlank, hrb]
      · simp [isBlank, hrb, stripIdx, toStrO, toStr]
  · unfold stopAt blankPair
    rw [rlookup_encRow_head_Q, rlookup_encRow_head_R]
    by_cases hq0 : ex.q = ""
    · have hr0 : ex.r ≠ "" := fun h => hqr ⟨hq0, h⟩
      have hrg : goodText ex.r := by
        rcases hr with h | h
        · exact absurd h hr0
        · exact h
      have : isBlank (some (vStr ex.r)) = false := by
        simp [isBlank]
        exact hrg
      simp [this]
    · have hqg : goodText ex.q := by
        rcases hq with h | h
        · exact absurd h hq0
        · exact h
      have : isBlank (some (vStr ex.q)) = false := by
        simp [isBlank]
        exact hqg
      simp [this]

lemma aux_encRow :
    ∀ (exs : List EncExchange) (k fuel : Nat), 1 ≤ k → exs.length < fuel →
      (∀ ex ∈ exs, WFex ex) →
      (rowToMessagesAux (encRowFrom k exs) fuel k).map stripIdx =
        exs.flatMap exchMsgsC := by
  intro exs
  induction exs with
  | nil =>
    intro k fuel hk hf hwf
    obtain ⟨f, rfl⟩ : ∃ f, fuel = f + 1 := ⟨fuel - 1, by omega⟩
    have hstop : stopAt (encRowFrom k []) k = true := by
      simp [encRowFrom, stopAt, blankPair, rlookup, isBlank]
    simp [rowToMessagesAux, hstop]
  | cons ex rest ih =>
    intro k fuel hk hf hwf
    obtain ⟨f, rfl⟩ : ∃ f, fuel = f + 1 := ⟨fuel - 1, by omega⟩
    have hhd := pairMsgs_encRow_head ex rest k hk (hwf ex (List.mem_cons_self _ _))
    simp only [rowToMessagesAux, hhd.2, Bool.false_eq_true, if_false]
    rw [List.map_append, hhd.1,
      aux_encRow_shift ex rest k hk f (k + 1) (le_refl _),
      ih (k + 1) f (by omega) (by simpa using hf)
        (fun x hx => hwf x (List.mem_cons_of_mem _ hx))]
    simp

lemma maxPairIdx_encRowFrom :
    ∀ (exs : List EncExchange) (k : Nat), exs ≠ [] →
      maxPairIdx (encRowFrom k exs) = k + exs.length - 1 := by
  intro exs
  induction exs with
  | nil => intro k h; exact absurd rfl h
  | cons ex rest ih =>
    intro k _
    have hunfold : maxPairIdx (encRowFrom k (ex :: rest)) =
        max (pairIdxOf (Col.Q k)) (max (pairIdxOf (Col.R k)) (max (pairIdxOf (Col.N k))
          (max (pairIdxOf (expColFor k)) (maxPairIdx (encRowFrom (k + 1) rest))))) := rfl
    cases hrest : rest with
    | nil =>
      subst hrest
      rw [hunfold, pairIdxOf_expColFor]
      show max k (max k (max 0 (max 0 (maxPairIdx (encRowFrom (k + 1) []))))) = k + 1 - 1
      have h0 : maxPairIdx (encRowFrom (k + 1) []) = 0 := rfl
      rw [h0]
      omega
    | cons ex2 rest2 =>
      have hr : rest ≠ [] := by rw [hrest]; simp
      rw [← hrest]
      rw [hunfold, pairIdxOf_expColFor, ih (k + 1) hr]
      show max k (max k (max 0 (max 0 (k + 1 + rest.length - 1)))) =
        k + (ex :: rest).length - 1
      have hlen : 1 ≤ rest.length := by rw [hrest]; simp
      simp only [List.length_cons]
      omega

lemma decode_encRow (exs : List EncExchange) (hwf : ∀ ex ∈ exs, WFex ex) :
    (rowToMessages (encRowFrom 1 exs)).map stripIdx = exs.flatMap exchMsgsC := by
  unfold rowToMessages
  refine aux_encRow exs 1 _ (le_refl 1) ?_ hwf
  cases hexs : exs with
  | nil => simp [encRowFrom, maxPairIdx]
  | cons ex rest =>
    rw [← hexs, maxPairIdx_encRowFrom exs 1 (by rw [hexs]; simp)]
    have : 1 ≤ exs.length := by rw [hexs]; simp
    omega

/-- C2 (amended): decoding, re-encoding under the export column
convention, and decoding again reproduces the original turn sequence up
to the assistant `exchangeIndex` field — role, text, expectation and
note of every turn agree.  The index itself is renumbered consecutively
by the re-encoding, so full equality fails exactly on rows whose decoded
pair indices are not already 0, 1, 2, ... (see the counterexample). -/
theorem C2_decode_encode_decode_roundtrip_mod_index (row : Row) :
    (rowToMessages (encodeMsgs (rowToMessages row))).map stripIdx =
      (rowToMessages row).map stripIdx := by
  rw [encodeMsgs, decode_encRow _ (msgsToExchanges_WF _ (rowToMessages_WF row)),
    exchMsgs_group _ (rowToMessages_WF row)]
